import Mathlib

/-!
Verification of the Halin request-dispatch engine (src/halin.ts).

The repository ships two revisions of halin.ts in one file (an earlier
revision, called variant A below, and a later revision, variant B).  Both
are embedded where their behavior differs (listen vs handle dispatch,
error wrapping); shared machinery (the response builder, the pattern
compiler, the SSE writer, the continuation-passing handler chain) is
identical in both and embedded once.

Modelling conventions:
* JavaScript values relevant to the code are modelled by JValue;
  typeof and JSON.stringify are modelled for exactly the cases exercised
  (string escaping inside JSON strings is not modelled; the strings used
  contain no characters needing escapes).
* The Headers object is an insertion-ordered list with lower-cased keys;
  Headers.set overwrites case-insensitively, as in the WHATWG API.
* JS exceptions are modelled by an explicit error field threaded through
  the executors; the mutable response object is threaded as state so the
  partially built response survives a throw, as it does in the source.
-/

namespace Halin

/-- Model of the JavaScript values the framework manipulates. -/
inductive JValue where
  | null
  | str (s : String)
  | num (n : Int)
  | boolean (b : Bool)
  | obj (fields : List (String × JValue))
deriving Repr

/-- The JavaScript typeof operator on JValue; note typeof null is the
string object, which is what Response.send branches on. -/
def jsTypeof : JValue → String
  | .null => "object"
  | .obj _ => "object"
  | .str _ => "string"
  | .num _ => "number"
  | .boolean _ => "boolean"

/-- JSON string quoting (escaping of special characters not modelled;
no string used in this development needs it). -/
def jsonQuote (s : String) : String := "\"" ++ s ++ "\""

mutual

/-- JSON.stringify on JValue. -/
def jsonStringify : JValue → String
  | .null => "null"
  | .str s => jsonQuote s
  | .num n => toString n
  | .boolean b => cond b "true" "false"
  | .obj fs => "\x7b" ++ jsonStringifyFields fs ++ "\x7d"

/-- JSON.stringify of an object body, comma separated fields. -/
def jsonStringifyFields : List (String × JValue) → String
  | [] => ""
  | [(k, v)] => jsonQuote k ++ ":" ++ jsonStringify v
  | (k, v) :: f :: fs =>
      jsonQuote k ++ ":" ++ jsonStringify v ++ "," ++ jsonStringifyFields (f :: fs)

end

/-- The JavaScript String() coercion used by Response.send on the
non-object branch. -/
def jsToString : JValue → String
  | .null => "null"
  | .str s => s
  | .num n => toString n
  | .boolean b => cond b "true" "false"
  | .obj _ => "[object Object]"

/-- Headers.set: case-insensitive overwrite; new names are appended.
Keys are stored lower-cased. -/
def headersSet (hs : List (String × String)) (name value : String) :
    List (String × String) :=
  let k := name.toLower
  if hs.any (fun p => p.1 = k) then
    hs.map (fun p => if p.1 = k then (k, value) else p)
  else hs ++ [(k, value)]

/-- Headers.get: case-insensitive lookup. -/
def headersGet (hs : List (String × String)) (name : String) : Option String :=
  (hs.find? (fun p => p.1 = name.toLower)).map Prod.snd

/-- The body field of the response object: string, null, or a stream
(streams are opaque, identified by a tag). -/
inductive BodyVal where
  | nullBody
  | text (s : String)
  | streamRef (id : Nat)
deriving Repr, DecidableEq

/-- The mutable response object created per request in listen and handle
(statusCode 200, empty Headers, body null). -/
structure ResponseState where
  statusCode : Nat
  headers : List (String × String)
  body : BodyVal
deriving Repr, DecidableEq

/-- Fresh response object: statusCode 200, no headers, null body. -/
def initRes : ResponseState := ⟨200, [], .nullBody⟩

/-- res.status(code). -/
def ResponseState.status (res : ResponseState) (code : Nat) : ResponseState :=
  { res with statusCode := code }

/-- res.header(name, value). -/
def ResponseState.header (res : ResponseState) (name value : String) : ResponseState :=
  { res with headers := headersSet res.headers name value }

/-- res.json(data): sets Content-Type and stringifies. -/
def ResponseState.json (res : ResponseState) (data : JValue) : ResponseState :=
  let r := res.header ("Content-Type") ("application/json")
  { r with body := .text (jsonStringify data) }

/-- res.text(data): sets Content-Type text/plain. -/
def ResponseState.text (res : ResponseState) (data : String) : ResponseState :=
  let r := res.header ("Content-Type") ("text/plain")
  { r with body := .text data }

/-- res.send(data): typeof dispatch, objects (including null) through
json, everything else through text after String() coercion. -/
def ResponseState.send (res : ResponseState) (data : JValue) : ResponseState :=
  if jsTypeof data = "object" then res.json data else res.text (jsToString data)

/-- res.stream(stream). -/
def ResponseState.stream (res : ResponseState) (id : Nat) : ResponseState :=
  { res with body := .streamRef id }

/-- The SSEWriter class: headers fixed at construction, a closed flag,
the byte sink modelled as the list of enqueued chunks, and a count of
controller.close() signals sent to the sink. -/
structure SSEWriter where
  statusCode : Nat
  headers : List (String × String)
  closed : Bool
  sink : List String
  finalized : Nat
deriving Repr, DecidableEq

/-- The SSEWriter constructor. -/
def SSEWriter.new : SSEWriter :=
  { statusCode := 200
    headers :=
      headersSet (headersSet (headersSet [] ("Content-Type") ("text/event-stream"))
        ("Cache-Control") ("no-cache")) ("Connection") ("keep-alive")
    closed := false
    sink := []
    finalized := 0 }

/-- SSEWriter.send: returns false without touching the sink when closed;
otherwise encodes the event and enqueues it, returning true. -/
def SSEWriter.send (w : SSEWriter) (data : JValue) : SSEWriter × Bool :=
  if w.closed then (w, false)
  else
    let message := if jsTypeof data = "string" then jsToString data else jsonStringify data
    ({ w with sink := w.sink ++ ["data: " ++ message ++ "\n\n"] }, true)

/-- SSEWriter.close: when not yet closed, sets the flag and sends one
close signal to the sink controller; otherwise does nothing. -/
def SSEWriter.close (w : SSEWriter) : SSEWriter :=
  if w.closed then w else { w with closed := true, finalized := w.finalized + 1 }

/-- The stream cancel callback: marks the writer closed without a
controller.close() signal. -/
def SSEWriter.cancel (w : SSEWriter) : SSEWriter :=
  { w with closed := true }

/-!
Pattern compiler.  pathToPattern builds the regular expression
new RegExp("^" + path.replace(/\/:([^/]+)/g, "/([^/]+)").replace(/\*/g, ".*") + "$").
We embed the compiled regex as a token list: a literal slash-colon-name
segment compiles to a slash literal plus an anonymous capture group
matching one or more non-slash characters; an asterisk anywhere compiles
to a greedy match-anything; a dot that survives into the regex is the
regex any-single-character metacharacter, since the source does not
escape it.  Other regex metacharacters surviving into the compiled
pattern are not modelled; theorems whose truth depends on their
semantics carry a templateSafeB hypothesis restricting templates to the
faithfully modelled fragment (the dot is deliberately inside that
fragment).  The regex dot and dot-star of JavaScript exclude line
terminators; paths containing line terminators are outside the model.
-/

/-- One token of the compiled route pattern. -/
inductive PatToken where
  | lit (c : Char)
  | anyChar
  | capture
  | wildcard
deriving Repr, DecidableEq

/-- Scanner for the two sequential global replaces of pathToPattern,
followed by interpretation of the resulting regex source.  fuel is the
length of the remaining input; every step consumes at least one
character, so the initial fuel always suffices. -/
def compileGo : Nat → List Char → List PatToken
  | 0, _ => []
  | _ + 1, [] => []
  | fuel + 1, c :: rest =>
    if c = '/' then
      match rest with
      | ':' :: d :: rest2 =>
        if d = '/' then .lit '/' :: compileGo fuel rest
        else
          .lit '/' :: .capture ::
            compileGo fuel (List.dropWhile (fun x => x ≠ '/') (d :: rest2))
      | _ => .lit '/' :: compileGo fuel rest
    else if c = '*' then .wildcard :: compileGo fuel rest
    else if c = '.' then .anyChar :: compileGo fuel rest
    else .lit c :: compileGo fuel rest

/-- pathToPattern: compile a path template to the token list of its
anchored regex. -/
def pathToPattern (path : String) : List PatToken :=
  compileGo path.toList.length path.toList

/-- The characters that are regex metacharacters in the compiled pattern
and are not modelled by compileGo (dot and asterisk are modelled). -/
def unmodeledMeta : List Char :=
  ['+', '(', ')', '[', ']', '?', '\\', '|', '^', '$', '\x7b', '\x7d']

/-- Templates inside the faithfully modelled fragment: no unmodelled
regex metacharacter occurs in the template. -/
def templateSafeB (path : String) : Bool :=
  path.toList.all (fun c => ¬ unmodeledMeta.contains c)

/-- All ways to split off a nonempty run of non-slash characters,
longest first: the candidate matches of a greedy capture group, in the
order the backtracking regex engine tries them. -/
def capSplits (ds : List Char) : List (List Char × List Char) :=
  let m := (ds.takeWhile (fun c => c ≠ '/')).length
  (List.range m).map (fun i => (ds.take (m - i), ds.drop (m - i)))

/-- All ways to split the input, longest prefix first: the candidate
matches of a greedy dot-star, in backtracking order. -/
def wildSplits (ds : List Char) : List (List Char × List Char) :=
  (List.range (ds.length + 1)).map (fun i => (ds.take (ds.length - i), ds.drop (ds.length - i)))

/-- Anchored match of a compiled pattern against a path, returning the
captured groups in order (the values of match[1], match[2], ...).
Greedy backtracking order as in the JavaScript engine. -/
def patMatch : List PatToken → List Char → Option (List String)
  | [], ds => if ds = [] then some [] else none
  | .lit _ :: _, [] => none
  | .lit c :: ps, d :: ds => if d = c then patMatch ps ds else none
  | .anyChar :: _, [] => none
  | .anyChar :: ps, _ :: ds => patMatch ps ds
  | .capture :: ps, ds =>
      (capSplits ds).findSome?
        (fun pr => (patMatch ps pr.2).map (fun caps => String.mk pr.1 :: caps))
  | .wildcard :: ps, ds =>
      (wildSplits ds).findSome? (fun pr => patMatch ps pr.2)

/-- The parameter-name scan of extractParams:
route.path.match(/:[^\x2f]+/g), with the leading colon of each match
stripped (param.slice(1)).  fuel as in compileGo. -/
def paramNamesGo : Nat → List Char → List String
  | 0, _ => []
  | _ + 1, [] => []
  | fuel + 1, c :: rest =>
    if c = ':' then
      match rest with
      | [] => []
      | d :: rest2 =>
        if d = '/' then paramNamesGo fuel rest
        else
          String.mk ((d :: rest2).takeWhile (fun x => x ≠ '/')) ::
            paramNamesGo fuel ((d :: rest2).dropWhile (fun x => x ≠ '/'))
    else paramNamesGo fuel rest

/-- Ordered parameter names declared by a template. -/
def paramNames (path : String) : List String :=
  paramNamesGo path.toList.length path.toList

/-- The params object: insertion-ordered string map; a value of none
models an undefined capture (match[i] beyond the group count). -/
abbrev Params := List (String × Option String)

/-- Assignment params[k] = v on a JS object: overwrite in place if the
key exists, append otherwise. -/
def paramsSet (ps : Params) (k : String) (v : Option String) : Params :=
  if ps.any (fun p => p.1 = k) then
    ps.map (fun p => if p.1 = k then (k, v) else p)
  else ps ++ [(k, v)]

/-- paramNames.forEach((param, index) => params[param.slice(1)] = match[index + 1]). -/
def buildParams (names : List String) (groups : List String) : Params :=
  (names.enum).foldl (fun ps p => paramsSet ps p.2 (groups.get? p.1)) []

/-- A registered route: method, original template, compiled pattern,
handler chain.  Handler is defined with the chain executor below. -/
structure RouteDefinition (H : Type) where
  method : String
  path : String
  pattern : List PatToken
  handlers : List H
deriving Repr

/-- extractParams: match the path against the compiled pattern; on
success bind each declared parameter name, in declaration order, to the
corresponding capture group. -/
def extractParams {H : Type} (route : RouteDefinition H) (path : String) : Option Params :=
  match patMatch route.pattern path.toList with
  | none => none
  | some groups => some (buildParams (paramNames route.path) groups)

/-- findRoute: linear scan of the route table in registration order;
first route with equal method whose pattern matches wins. -/
def findRoute {H : Type} :
    List (RouteDefinition H) → String → String → Option (RouteDefinition H × Params)
  | [], _, _ => none
  | route :: routes, method, path =>
    if route.method = method then
      match extractParams route path with
      | some params => some (route, params)
      | none => findRoute routes method path
    else findRoute routes method path

/-- The resolution contract in the words of the specification: a linear
scan over definitions with equal method returning the first pattern
match with its captures.  Stated with List.find? to be compared with
findRoute. -/
def findRouteSpec {H : Type} (routes : List (RouteDefinition H)) (method path : String) :
    Option (RouteDefinition H × Params) :=
  (routes.find? (fun r => r.method == method && (extractParams r path).isSome)).bind
    (fun r => (extractParams r path).map (fun ps => (r, ps)))

/-!
Handler chain executor.  A handler (req, res, next) is modelled as a
named list of primitive steps: response mutations through the response
object methods, throwing, and invoking the proceed continuation.  The
executor mirrors the source exactly:

    let index = 0;
    const next = async () => \x7b
      if (index < handlers.length) \x7b
        const handler = handlers[index++];
        await handler(req, res, next);
      \x7d
    \x7d;
    await next();

The mutable shared index is represented by returning, from every
(sub)run, the number of handlers it consumed from the tail of the
chain; a handler that calls proceed again afterwards continues from
that point, exactly as the closed-over index does. -/

/-- The JavaScript error values flowing through the engine: the typed
HalinError carrying statusCode and message, or any other Error with a
message. -/
inductive JSError where
  | halin (statusCode : Nat) (message : String)
  | generic (message : String)
deriving Repr, DecidableEq

/-- One primitive step of a handler body. -/
inductive HAction where
  | setStatus (code : Nat)
  | setHeader (name value : String)
  | jsonH (v : JValue)
  | textH (s : String)
  | sendH (v : JValue)
  | streamH (id : Nat)
  | throwErr (e : JSError)
  | proceed

/-- A handler: an observable name (recorded in the execution trace when
the handler is invoked) and its body. -/
structure Handler where
  name : String
  actions : List HAction

/-- Result of running part of a chain: final response state, trace of
invoked handler names, number of handlers consumed from the tail, and
the escaping error if one was thrown. -/
structure ChainOut where
  res : ResponseState
  trace : List String
  consumed : Nat
  err : Option JSError

/-- Execute the remaining actions of the current handler against the
remaining tail of the chain.  The proceed step with a nonempty tail is
next() dispatching the next handler; with an exhausted tail it is
next() returning immediately. -/
def runActions : List HAction → List Handler → ResponseState → List String → ChainOut
  | [], _, res, tr => ⟨res, tr, 0, none⟩
  | .setStatus n :: as, rest, res, tr => runActions as rest (res.status n) tr
  | .setHeader k v :: as, rest, res, tr => runActions as rest (res.header k v) tr
  | .jsonH v :: as, rest, res, tr => runActions as rest (res.json v) tr
  | .textH s :: as, rest, res, tr => runActions as rest (res.text s) tr
  | .sendH v :: as, rest, res, tr => runActions as rest (res.send v) tr
  | .streamH i :: as, rest, res, tr => runActions as rest (res.stream i) tr
  | .throwErr e :: _, _, res, tr => ⟨res, tr, 0, some e⟩
  | .proceed :: as, [], res, tr => runActions as [] res tr
  | .proceed :: as, h :: rest, res, tr =>
    let r := runActions h.actions rest res (tr ++ [h.name])
    match r.err with
    | some e => ⟨r.res, r.trace, 1 + r.consumed, some e⟩
    | none =>
      let r2 := runActions as (rest.drop r.consumed) r.res r.trace
      ⟨r2.res, r2.trace, 1 + r.consumed + r2.consumed, r2.err⟩
termination_by as rest => (rest.length, as.length)
decreasing_by
  all_goals simp_wf
  all_goals first
    | exact Prod.Lex.right _ (Nat.lt_succ_self _)
    | exact Prod.Lex.left _ _ (Nat.lt_succ_self _)
    | omega

/-- The initial await next() on the whole chain. -/
def runChain (hs : List Handler) (res : ResponseState) : ChainOut :=
  runActions [.proceed] hs res []

/-!
Error chain executor.  Error handlers are handlers of arity four
(error, req, res, next); errorNext closes over the single caught error,
so every error handler invoked in one recovery pass receives that same
error value; exhausting the list rethrows it:

    let errorIndex = 0;
    const errorNext = async () => \x7b
      if (errorIndex < this.errorHandlers.length) \x7b
        const handler = this.errorHandlers[errorIndex++];
        await handler(error, req, res, errorNext);
      \x7d else \x7b
        throw error;
      \x7d
    \x7d;
    await errorNext();
-/

/-- One primitive step of an error-handler body; rethrow throws the
error the handler received. -/
inductive EAction where
  | setStatus (code : Nat)
  | setHeader (name value : String)
  | jsonE (v : JValue)
  | textE (s : String)
  | proceed
  | throwErr (e : JSError)
  | rethrow

/-- An error handler: observable name and body. -/
structure ErrHandler where
  name : String
  actions : List EAction

/-- Result of running part of the error chain; etrace records each
invoked error handler together with the error value delivered to it. -/
structure EChainOut where
  res : ResponseState
  etrace : List (String × JSError)
  consumed : Nat
  err : Option JSError

/-- Execute the remaining actions of the current error handler; proceed
on an exhausted tail is the throw in the else branch of errorNext. -/
def runEActions (e : JSError) :
    List EAction → List ErrHandler → ResponseState → List (String × JSError) → EChainOut
  | [], _, res, tr => ⟨res, tr, 0, none⟩
  | .setStatus n :: as, rest, res, tr => runEActions e as rest (res.status n) tr
  | .setHeader k v :: as, rest, res, tr => runEActions e as rest (res.header k v) tr
  | .jsonE v :: as, rest, res, tr => runEActions e as rest (res.json v) tr
  | .textE s :: as, rest, res, tr => runEActions e as rest (res.text s) tr
  | .throwErr e2 :: _, _, res, tr => ⟨res, tr, 0, some e2⟩
  | .rethrow :: _, _, res, tr => ⟨res, tr, 0, some e⟩
  | .proceed :: _, [], res, tr => ⟨res, tr, 0, some e⟩
  | .proceed :: as, h :: rest, res, tr =>
    let r := runEActions e h.actions rest res (tr ++ [(h.name, e)])
    match r.err with
    | some e2 => ⟨r.res, r.etrace, 1 + r.consumed, some e2⟩
    | none =>
      let r2 := runEActions e as (rest.drop r.consumed) r.res r.etrace
      ⟨r2.res, r2.etrace, 1 + r.consumed + r2.consumed, r2.err⟩
termination_by as rest => (rest.length, as.length)
decreasing_by
  all_goals simp_wf
  all_goals first
    | exact Prod.Lex.right _ (Nat.lt_succ_self _)
    | exact Prod.Lex.left _ _ (Nat.lt_succ_self _)
    | omega

/-- The initial await errorNext() on the error chain. -/
def runErrChain (e : JSError) (ehs : List ErrHandler) (res : ResponseState) : EChainOut :=
  runEActions e [.proceed] ehs res []

/-!
The Halin application object and its registration surface.  The source
classifies arguments of use by arity (handler.length === 4); the model
keeps the two kinds as distinct types with one registration entry point
each, which is the same classification made explicit. -/

/-- The application: route table, global middleware, error handlers. -/
structure App where
  routes : List (RouteDefinition Handler)
  middlewares : List Handler
  errorHandlers : List ErrHandler

/-- A new Halin() application. -/
def App.empty : App := ⟨[], [], []⟩

/-- JavaScript String.prototype.toUpperCase, used by on(). -/
def jsUpper (s : String) : String := String.mk (s.toList.map Char.toUpper)

/-- addRoute: push the route with its compiled pattern; no validation
of the template is performed. -/
def App.addRoute (app : App) (method path : String) (handlers : List Handler) : App :=
  { app with routes := app.routes ++ [⟨method, path, pathToPattern path, handlers⟩] }

/-- on(method, path, handlers): addRoute with upper-cased method. -/
def App.on (app : App) (method path : String) (handlers : List Handler) : App :=
  app.addRoute (jsUpper method) path handlers

/-- get(path, handlers). -/
def App.get (app : App) (path : String) (handlers : List Handler) : App :=
  app.on ("GET") path handlers

/-- use with a regular (arity below four) middleware handler. -/
def App.use (app : App) (h : Handler) : App :=
  { app with middlewares := app.middlewares ++ [h] }

/-- use with an arity-four error handler. -/
def App.useError (app : App) (h : ErrHandler) : App :=
  { app with errorHandlers := app.errorHandlers ++ [h] }

/-!
Dispatch.  The wire response is the argument of the final
new Response(body, \x7b status, headers \x7d): error boundaries build a JSON
object body (modelled structurally as its field list, in the order
JSON.stringify emits them) with a Content-Type application/json header;
success paths serialize the accumulated response state. -/

/-- The body of a wire response. -/
inductive WireBody where
  | fromState (b : BodyVal)
  | jsonFields (fields : List (String × String))
deriving Repr, DecidableEq

/-- The wire response handed back to the host server. -/
structure WireResponse where
  status : Nat
  headers : List (String × String)
  body : WireBody
deriving Repr, DecidableEq

/-- An error-boundary response: given status, JSON object body. -/
def errorWire (status : Nat) (fields : List (String × String)) : WireResponse :=
  ⟨status, headersSet [] ("Content-Type") ("application/json"), .jsonFields fields⟩

/-- Serialization of the accumulated response state. -/
def serializeRes (res : ResponseState) : WireResponse :=
  ⟨res.statusCode, res.headers, .fromState res.body⟩

/-- The final catch of handle (identical in both revisions):
HalinError maps to its carried status and message; any other error maps
to status 500 with the error own message in the error field, falling
back to Internal Server Error only when the message is falsy (empty). -/
def handleBoundary : JSError → WireResponse
  | .halin s m => errorWire s [(("error"), m)]
  | .generic m => errorWire 500 [(("error"), if m = "" then "Internal Server Error" else m)]

/-- The final catch of listen in revision A: HalinError maps to its
carried status and message; anything else to a generic 500. -/
def listenBoundaryA : JSError → WireResponse
  | .halin s m => errorWire s [(("error"), m)]
  | .generic _ => errorWire 500 [(("error"), "Internal Server Error")]

/-- The final catch of listen in revision B: as revision A, except that
in development mode the raw message is added in a separate message
field (JSON.stringify drops the field when it is undefined). -/
def listenBoundaryB (dev : Bool) : JSError → WireResponse
  | .halin s m => errorWire s [(("error"), m)]
  | .generic m =>
      errorWire 500 ([(("error"), "Internal Server Error")] ++
        if dev then [(("message"), if m = "" then "Internal Server Error" else m)] else [])

/-- The wrap applied by the next function of listen in revision B to
every error escaping a middleware call:
error instanceof HalinErrorminus error : new HalinError(500, Middleware error colon message). -/
def wrapMw : JSError → JSError
  | .halin s m => .halin s m
  | .generic m => .halin 500 ("Middleware error: " ++ m)

/-- The wrap applied by errorNext of listen in revision B to every
error escaping an error handler (or the exhaustion rethrow). -/
def wrapEh : JSError → JSError
  | .halin s m => .halin s m
  | .generic m => .halin 500 ("Error handler failed: " ++ m)

/-- Observable outcome of a dispatch: the wire response, the trace of
invoked chain handlers, and the trace of invoked error handlers with
the error each received. -/
structure DispatchOut where
  wire : WireResponse
  trace : List String
  etrace : List (String × JSError)
deriving Repr, DecidableEq

/-- The error-recovery stage of handle: with no error handlers the
error reaches the final catch; otherwise the error chain runs against
the current response state, a recovery serializes that state, and an
error escaping the chain reaches the final catch. -/
def handleRecover (app : App) (res : ResponseState) (tr : List String) (e : JSError) :
    DispatchOut :=
  if app.errorHandlers.isEmpty then ⟨handleBoundary e, tr, []⟩
  else
    let er := runErrChain e app.errorHandlers res
    match er.err with
    | none => ⟨serializeRes er.res, tr, er.etrace⟩
    | some e2 => ⟨handleBoundary e2, tr, er.etrace⟩

/-- handle(request) of revision B: the route is resolved inside the
inner try, so a missing route throws HalinError(404) into the error
chain; on a match the chain global middleware plus route handlers runs,
and any escaping error goes through the error chain unmodified.
(Revision A differs only on the no-match path: it throws the 404 from
the exhausted next continuation after the global middleware has run.)
Body parsing is outside this model (requests carry no body here). -/
def handleDispatch (app : App) (method path : String) : DispatchOut :=
  match findRoute app.routes method path with
  | none => handleRecover app initRes [] (.halin 404 ("Not Found"))
  | some (route, _) =>
    let r := runChain (app.middlewares ++ route.handlers) initRes
    match r.err with
    | none => ⟨serializeRes r.res, r.trace, []⟩
    | some e => handleRecover app r.res r.trace e

/-- listen fetch of revision A: a missing route throws HalinError(404)
outside the region guarded by the error chain, so the final catch
responds directly and error handlers are never consulted; errors from a
matched chain go to the error chain unmodified when error handlers
exist, else to the final catch. -/
def listenDispatchA (app : App) (method path : String) : DispatchOut :=
  match findRoute app.routes method path with
  | none => ⟨listenBoundaryA (.halin 404 ("Not Found")), [], []⟩
  | some (route, _) =>
    let r := runChain (app.middlewares ++ route.handlers) initRes
    match r.err with
    | none => ⟨serializeRes r.res, r.trace, []⟩
    | some e =>
      if app.errorHandlers.isEmpty then ⟨listenBoundaryA e, r.trace, []⟩
      else
        let er := runErrChain e app.errorHandlers r.res
        match er.err with
        | none => ⟨serializeRes er.res, r.trace, er.etrace⟩
        | some e2 => ⟨listenBoundaryA e2, r.trace, er.etrace⟩

/-- listen fetch of revision B: as revision A, but the next function
wraps every non-HalinError escaping a middleware into
HalinError(500, Middleware error...) before it reaches the error chain
or the boundary, and errorNext wraps errors escaping error handlers
likewise. -/
def listenDispatchB (dev : Bool) (app : App) (method path : String) : DispatchOut :=
  match findRoute app.routes method path with
  | none => ⟨listenBoundaryB dev (.halin 404 ("Not Found")), [], []⟩
  | some (route, _) =>
    let r := runChain (app.middlewares ++ route.handlers) initRes
    match r.err with
    | none => ⟨serializeRes r.res, r.trace, []⟩
    | some e0 =>
      let e := wrapMw e0
      if app.errorHandlers.isEmpty then ⟨listenBoundaryB dev e, r.trace, []⟩
      else
        let er := runErrChain e app.errorHandlers r.res
        match er.err with
        | none => ⟨serializeRes er.res, r.trace, er.etrace⟩
        | some e2 => ⟨listenBoundaryB dev (wrapEh e2), r.trace, er.etrace⟩

/-!
Auxiliary vocabulary about handler bodies, used to state the chain
theorems: handlers that never throw, handlers that invoke proceed, and
the pure effect of a run of mutation steps on the response state. -/

/-- Is this step the proceed call. -/
def isProceed : HAction → Bool
  | .proceed => true
  | _ => false

/-- Is this step a throw. -/
def isThrow : HAction → Bool
  | .throwErr _ => true
  | _ => false

/-- A body that never throws. -/
def actsCleanB (as : List HAction) : Bool := as.all (fun a => !(isThrow a))

/-- A body that invokes proceed at least once. -/
def actsHasProceedB (as : List HAction) : Bool := as.any isProceed

/-- A body that never invokes proceed. -/
def actsNoProceedB (as : List HAction) : Bool := as.all (fun a => !(isProceed a))

/-- The pure effect of one step on the response state (proceed and
throw leave the state unchanged; their control effects are handled by
the executor). -/
def applyAction (res : ResponseState) : HAction → ResponseState
  | .setStatus n => res.status n
  | .setHeader k v => res.header k v
  | .jsonH v => res.json v
  | .textH s => res.text s
  | .sendH v => res.send v
  | .streamH i => res.stream i
  | .throwErr _ => res
  | .proceed => res

/-- The pure effect of a body on the response state. -/
def applyActions (as : List HAction) (res : ResponseState) : ResponseState :=
  as.foldl applyAction res

/-- The steps of a body before its first proceed. -/
def beforeProceed (as : List HAction) : List HAction :=
  as.takeWhile (fun a => !(isProceed a))

/-- The steps of a body after its first proceed. -/
def afterProceed (as : List HAction) : List HAction :=
  (as.dropWhile (fun a => !(isProceed a))).tail

/-- The response state produced by a chain of single-proceed handlers
followed by a terminal handler that never proceeds: each handler
applies its steps before proceed, the rest of the chain runs, then its
steps after proceed apply on the way back up. -/
def chainState : List Handler → Handler → ResponseState → ResponseState
  | [], hi, res => applyActions hi.actions res
  | h :: pre, hi, res =>
      applyActions (afterProceed h.actions)
        (chainState pre hi (applyActions (beforeProceed h.actions) res))

/-!
General lemmas about the chain executors.
-/

theorem runActions_trace_prefix (as : List HAction) (rest : List Handler)
    (res : ResponseState) (tr : List String) :
    ∃ d, (runActions as rest res tr).trace = tr ++ d := by
  induction as, rest, res, tr using runActions.induct <;> simp_all [runActions]
  case case10 as h rest res tr r e herr ih =>
    obtain ⟨d, hd⟩ := ih
    have hr : (runActions h.actions rest res (tr ++ [h.name])).err = some e := herr
    exact ⟨[h.name] ++ d, by simp [runActions, hr, hd]⟩
  case case11 as h rest res tr r herr ih1 ih2 =>
    have hrfl : r = runActions h.actions rest res (tr ++ [h.name]) := rfl
    rw [hrfl] at herr
    obtain ⟨d1, hd1⟩ := ih1
    rw [hd1] at ih2
    obtain ⟨d2, hd2⟩ := ih2
    refine ⟨[h.name] ++ d1 ++ d2, ?_⟩
    simp [runActions, herr, hd2, hd1]

theorem runEActions_etrace_prefix (e : JSError) (as : List EAction) (rest : List ErrHandler)
    (res : ResponseState) (tr : List (String × JSError)) :
    ∃ d, (runEActions e as rest res tr).etrace = tr ++ d ∧ ∀ x ∈ d, x.2 = e := by
  induction as, rest, res, tr using runEActions.induct e <;> simp_all [runEActions]
  case case9 as h rest res tr r e2 herr ih =>
    obtain ⟨d, hd, hall⟩ := ih
    have hr : (runEActions e h.actions rest res (tr ++ [(h.name, e)])).err = some e2 := herr
    refine ⟨[(h.name, e)] ++ d, by simp [runEActions, hr, hd], ?_⟩
    intro a b hab
    rcases List.mem_append.mp hab with hm | hm
    · simp only [List.mem_singleton, Prod.mk.injEq] at hm
      exact hm.2
    · exact hall a b hm
  case case10 as h rest res tr r herr ih1 ih2 =>
    have hrfl : r = runEActions e h.actions rest res (tr ++ [(h.name, e)]) := rfl
    rw [hrfl] at herr
    obtain ⟨d1, hd1, hall1⟩ := ih1
    rw [hd1] at ih2
    obtain ⟨d2, hd2, hall2⟩ := ih2
    refine ⟨[(h.name, e)] ++ d1 ++ d2, by simp [runEActions, herr, hd2, hd1], ?_⟩
    intro a b hab
    rcases List.mem_append.mp hab with hm | hm
    · rcases List.mem_append.mp hm with hm2 | hm2
      · simp only [List.mem_singleton, Prod.mk.injEq] at hm2
        exact hm2.2
      · exact hall1 a b hm2
    · exact hall2 a b hm



/-- Running a concatenation of bodies: run the first; if it escaped
with an error that is the result, otherwise continue with the second
against the tail advanced by what the first consumed. -/
theorem runActions_append (as bs : List HAction) :
    ∀ (rest : List Handler) (res : ResponseState) (tr : List String),
    runActions (as ++ bs) rest res tr =
      (let t := runActions as rest res tr
       match t.err with
       | some _ => t
       | none =>
         let u := runActions bs (rest.drop t.consumed) t.res t.trace
         ⟨u.res, u.trace, t.consumed + u.consumed, u.err⟩) := by
  induction as with
  | nil =>
    intro rest res tr
    simp [runActions]
  | cons a as ih =>
    intro rest res tr
    cases a with
    | setStatus n => simp [runActions, ih]
    | setHeader k v => simp [runActions, ih]
    | jsonH v => simp [runActions, ih]
    | textH s => simp [runActions, ih]
    | sendH v => simp [runActions, ih]
    | streamH i => simp [runActions, ih]
    | throwErr e => simp [runActions]
    | proceed =>
      cases rest with
      | nil => simp [runActions, ih]
      | cons h rest =>
        simp only [List.cons_append, runActions]
        cases herr : (runActions h.actions rest res (tr ++ [h.name])).err with
        | some e => simp [herr]
        | none =>
          simp only [herr, ih]
          cases herr2 : (runActions as (List.drop (runActions h.actions rest res
              (tr ++ [h.name])).consumed rest) (runActions h.actions rest res
              (tr ++ [h.name])).res (runActions h.actions rest res (tr ++ [h.name])).trace).err with
          | some e2 => simp [herr2]
          | none =>
            simp only [herr2]
            generalize runActions h.actions rest res (tr ++ [h.name]) = r1
            generalize runActions as (List.drop r1.consumed rest) r1.res r1.trace = r2
            have hd : List.drop (1 + r1.consumed + r2.consumed) (h :: rest) =
                List.drop (r1.consumed + r2.consumed) rest := by
              rw [show 1 + r1.consumed + r2.consumed = (r1.consumed + r2.consumed) + 1 from by omega]
              simp
            rw [hd]
            simp
            omega

/-- A body that neither throws nor proceeds is a pure sequence of
response mutations: it consumes nothing and cannot fail. -/
theorem runActions_pure (as : List HAction) (hc : actsCleanB as = true)
    (hp : actsNoProceedB as = true) :
    ∀ (rest : List Handler) (res : ResponseState) (tr : List String),
    runActions as rest res tr = ⟨applyActions as res, tr, 0, none⟩ := by
  induction as with
  | nil => intro rest res tr; simp [runActions, applyActions]
  | cons a as ih =>
    intro rest res tr
    simp only [actsCleanB, actsNoProceedB, List.all_cons, Bool.and_eq_true] at hc hp
    cases a <;>
      simp_all [runActions, applyActions, applyAction, isThrow, isProceed, actsCleanB,
        actsNoProceedB]

/-- Against an exhausted chain tail, a body that never throws is pure:
its proceed calls return immediately. -/
theorem runActions_nil_rest (as : List HAction) (hc : actsCleanB as = true) :
    ∀ (res : ResponseState) (tr : List String),
    runActions as [] res tr = ⟨applyActions as res, tr, 0, none⟩ := by
  induction as with
  | nil => intro res tr; simp [runActions, applyActions]
  | cons a as ih =>
    intro res tr
    simp only [actsCleanB, List.all_cons, Bool.and_eq_true] at hc
    cases a <;>
      simp_all [runActions, applyActions, applyAction, isThrow, actsCleanB]


/-- A chain of handlers that never throw and always invoke proceed is
fully consumed in order: the trace extends by exactly the handler names
in chain order and no error escapes, whatever body drives it, provided
that body is clean and itself proceeds. -/
theorem runActions_clean_chain :
    ∀ (hs : List Handler), (∀ h ∈ hs, actsCleanB h.actions = true ∧ actsHasProceedB h.actions = true) →
    ∀ (as : List HAction), actsCleanB as = true → actsHasProceedB as = true →
    ∀ (res : ResponseState) (tr : List String),
    ∃ s, runActions as hs res tr = ⟨s, tr ++ hs.map Handler.name, hs.length, none⟩ := by
  intro hs
  induction hs with
  | nil =>
    intro _ as hc _ res tr
    exact ⟨applyActions as res, by simpa using runActions_nil_rest as hc res tr⟩
  | cons h rest ih =>
    intro hall as
    induction as with
    | nil => intro _ hp; simp [actsHasProceedB] at hp
    | cons a as iha =>
      intro hc hp res tr
      simp only [actsCleanB, actsHasProceedB, List.all_cons, List.any_cons,
        Bool.and_eq_true, Bool.or_eq_true] at hc hp
      cases a
      case throwErr e => simp [isThrow] at hc
      case proceed =>
        have hmem := hall h (List.mem_cons_self h rest)
        obtain ⟨s1, hs1⟩ := ih (fun g hg => hall g (List.mem_cons_of_mem h hg))
          h.actions hmem.1 hmem.2 res (tr ++ [h.name])
        have hrest : ∀ g, g ∈ rest → actsCleanB g.actions = true ∧
            actsHasProceedB g.actions = true :=
          fun g hg => hall g (List.mem_cons_of_mem h hg)
        refine ⟨applyActions as s1, ?_⟩
        simp only [runActions, hs1]
        rw [List.drop_length]
        rw [runActions_nil_rest as hc.2]
        simp
        omega
      all_goals
        simp only [runActions]
        rcases hp with hfalse | hp2
        · simp [isProceed] at hfalse
        · exact iha hc.2 hp2 _ tr


/-- A corollary of countP_eq_zero. -/
theorem noProceed_of_countP_zero (as : List HAction) (h : as.countP isProceed = 0) :
    actsNoProceedB as = true := by
  rw [List.countP_eq_zero] at h
  simp only [actsNoProceedB, List.all_eq_true]
  intro a ha
  simp [h a ha]

/-- A body with exactly one proceed splits as the steps before it, the
proceed, and the steps after it, which contain no further proceed. -/
theorem once_proceed_decomp (as : List HAction) (h1 : as.countP isProceed = 1) :
    as = beforeProceed as ++ HAction.proceed :: afterProceed as ∧
      actsNoProceedB (beforeProceed as) = true ∧
      (afterProceed as).countP isProceed = 0 := by
  induction as with
  | nil => simp at h1
  | cons a as ih =>
    by_cases hp : isProceed a = true
    · have ha : a = HAction.proceed := by cases a <;> simp_all [isProceed]
      subst ha
      have h0 : as.countP isProceed = 0 := by
        rw [List.countP_cons_of_pos _ _ (by simp [isProceed])] at h1
        omega
      refine ⟨by simp [beforeProceed, afterProceed, isProceed], ?_, ?_⟩
      · simp [beforeProceed, isProceed, actsNoProceedB]
      · simpa [afterProceed, isProceed] using h0
    · have h1t : as.countP isProceed = 1 := by
        rwa [List.countP_cons_of_neg _ _ (by simp [hp])] at h1
      obtain ⟨hd, hb, hc⟩ := ih h1t
      refine ⟨?_, ?_, ?_⟩
      · simpa [beforeProceed, afterProceed, hp] using hd
      · simp [beforeProceed, hp, actsNoProceedB]
      · simpa [afterProceed, hp] using hc

/-- In a chain of clean single-proceed handlers followed by a handler
that never proceeds, the chain stops at that handler: handlers beyond
it are never invoked and never consumed, no error escapes, and the
response state is exactly what the handlers up to and including it
computed. -/
theorem runActions_halt_chain :
    ∀ (pre : List Handler),
      (∀ h ∈ pre, actsCleanB h.actions = true ∧ h.actions.countP isProceed = 1) →
    ∀ (hi : Handler), actsCleanB hi.actions = true → actsNoProceedB hi.actions = true →
    ∀ (tail : List Handler) (res : ResponseState) (tr : List String),
    runActions [HAction.proceed] (pre ++ hi :: tail) res tr =
      ⟨chainState pre hi res, tr ++ (pre ++ [hi]).map Handler.name, pre.length + 1, none⟩ := by
  intro pre
  induction pre with
  | nil =>
    intro _ hi hic hip tail res tr
    simp only [List.nil_append, runActions, runActions_pure hi.actions hic hip]
    simp [chainState]
  | cons h pre ih =>
    intro hall hi hic hip tail res tr
    have hmem := hall h (List.mem_cons_self h pre)
    obtain ⟨hdec, hbnp, hac0⟩ := once_proceed_decomp h.actions hmem.2
    have hbc : actsCleanB (beforeProceed h.actions) = true := by
      have := hmem.1
      rw [hdec] at this
      simp only [actsCleanB, List.all_append, List.all_cons, Bool.and_eq_true] at this
      exact this.1
    have hacc : actsCleanB (afterProceed h.actions) = true := by
      have := hmem.1
      rw [hdec] at this
      simp only [actsCleanB, List.all_append, List.all_cons, Bool.and_eq_true] at this
      exact this.2.2
    have hanp : actsNoProceedB (afterProceed h.actions) = true :=
      noProceed_of_countP_zero _ hac0
    have hdrop : (pre ++ hi :: tail).drop (pre.length + 1) = tail := by
      have : pre ++ hi :: tail = (pre ++ [hi]) ++ tail := by simp
      rw [this, show pre.length + 1 = (pre ++ [hi]).length from by simp]
      exact List.drop_left _ _
    have hr : runActions h.actions (pre ++ hi :: tail) res (tr ++ [h.name]) =
        ⟨applyActions (afterProceed h.actions)
          (chainState pre hi (applyActions (beforeProceed h.actions) res)),
         (tr ++ [h.name]) ++ (pre ++ [hi]).map Handler.name, pre.length + 1, none⟩ := by
      conv_lhs => rw [hdec]
      rw [runActions_append]
      simp only [runActions_pure _ hbc hbnp, List.drop_zero]
      rw [show (HAction.proceed :: afterProceed h.actions) =
        [HAction.proceed] ++ afterProceed h.actions from rfl]
      rw [runActions_append]
      simp only [ih (fun g hg => hall g (List.mem_cons_of_mem h hg)) hi hic hip tail]
      simp only [hdrop, runActions_pure _ hacc hanp]
      simp
    simp only [List.cons_append, runActions, hr]
    simp [chainState]
    omega

/-- Headers.set followed by Headers.get of the same name yields the
value just set. -/
theorem headersGet_headersSet (hs : List (String × String)) (k v : String) :
    headersGet (headersSet hs k v) k = some v := by
  simp only [headersSet, headersGet]
  induction hs with
  | nil => simp
  | cons p t ih =>
    by_cases hp : p.1 = k.toLower
    · simp [hp]
    · by_cases ht : t.any (fun q => q.1 = k.toLower)
      · simp [hp, ht] at ih ⊢
        exact ih
      · simp [hp, ht] at ih ⊢
        exact ih

/-- The whole-chain run of a clean always-proceeding chain invokes every
handler once, in order, with no escaping error. -/
theorem runChain_clean (hs : List Handler)
    (hall : ∀ h ∈ hs, actsCleanB h.actions = true ∧ actsHasProceedB h.actions = true)
    (res : ResponseState) :
    ∃ s, runChain hs res = ⟨s, hs.map Handler.name, hs.length, none⟩ := by
  have := runActions_clean_chain hs hall [HAction.proceed] (by rfl) (by rfl) res []
  simpa [runChain] using this

/-- findRoute is the find?-based linear-scan specification. -/
theorem findRoute_eq_spec (H : Type) (routes : List (RouteDefinition H)) (method path : String) :
    findRoute routes method path = findRouteSpec routes method path := by
  induction routes with
  | nil => simp [findRoute, findRouteSpec]
  | cons r rs ih =>
    by_cases hm : r.method = method
    · cases hx : extractParams r path with
      | some ps => simp [findRoute, findRouteSpec, hm, hx]
      | none => simpa [findRoute, findRouteSpec, hm, hx] using ih
    · simpa [findRoute, findRouteSpec, hm] using ih

/-- Keys of the params object after paramsSet when the key is new. -/
theorem paramsSet_keys_new (ps : Params) (k : String) (v : Option String)
    (hk : ps.any (fun p => p.1 = k) = false) :
    (paramsSet ps k v).map Prod.fst = ps.map Prod.fst ++ [k] := by
  simp [paramsSet, hk]

/-- Generalized form of the params-key lemma over the foldl of
buildParams, for an arbitrary starting index and accumulator. -/
theorem buildParams_keys_aux (names : List String) :
    ∀ (idx : Nat) (groups : List String) (acc : Params),
    names.Nodup → (∀ n ∈ names, acc.any (fun p => p.1 = n) = false) →
    ((names.enumFrom idx).foldl (fun ps p => paramsSet ps p.2 (groups.get? p.1)) acc).map
        Prod.fst = acc.map Prod.fst ++ names := by
  induction names with
  | nil => intro idx groups acc _ _; simp
  | cons n ns ih =>
    intro idx groups acc hnd hacc
    have hn : acc.any (fun p => p.1 = n) = false := hacc n (by simp)
    have hstep : (paramsSet acc n (groups.get? idx)).map Prod.fst =
        acc.map Prod.fst ++ [n] := paramsSet_keys_new acc n _ hn
    have hrest : ∀ m ∈ ns, (paramsSet acc n (groups.get? idx)).any (fun p => p.1 = m) = false := by
      intro m hm
      have hmn : m ≠ n := by
        intro hEq
        subst hEq
        exact (List.nodup_cons.mp hnd).1 hm
      have hmacc : acc.any (fun p => p.1 = m) = false := hacc m (by simp [hm])
      rw [paramsSet, if_neg (by simp [hn])]
      simp only [List.any_eq_false] at hmacc ⊢
      intro p hp
      rcases List.mem_append.mp hp with h1 | h1
      · exact hmacc p h1
      · simp only [List.mem_singleton] at h1
        subst h1
        simp [hmn.symm]
    have := ih (idx + 1) groups (paramsSet acc n (groups.get? idx))
      (List.nodup_cons.mp hnd).2 hrest
    simp only [List.enumFrom_cons, List.foldl_cons] at *
    rw [this, hstep]
    simp

/-- C10: for every response state, send(null) dispatches through the
json branch (typeof null is the string object), so the body becomes the
text null and the Content-Type header is set to application/json; null
is never coerced through the text branch. -/
theorem send_null_goes_through_json (res : ResponseState) :
    res.send JValue.null = res.json JValue.null ∧
    (res.send JValue.null).body = BodyVal.text ("null") ∧
    headersGet (res.send JValue.null).headers ("Content-Type") =
      some ("application/json") := by
  have hj : res.send JValue.null = res.json JValue.null := by
    simp [ResponseState.send, jsTypeof]
  refine ⟨hj, ?_, ?_⟩
  · rw [hj]
    simp [ResponseState.json, jsonStringify]
  · rw [hj]
    simp only [ResponseState.json, ResponseState.header]
    exact headersGet_headersSet res.headers ("Content-Type") ("application/json")

/-- C8: close() on an open SSE writer is idempotent, finalizes the sink
exactly once across repeated calls, and any send() after close() is a
no-op: it returns the writer unchanged together with the failure
indicator false, writing nothing to the sink (and, the functions being
total, raising no error). -/
theorem sse_close_idempotent_send_noop (w : SSEWriter) (hw : w.closed = false) :
    w.close.close = w.close ∧
    w.close.finalized = w.finalized + 1 ∧
    w.close.close.finalized = w.finalized + 1 ∧
    ∀ d, w.close.send d = (w.close, false) := by
  refine ⟨?_, ?_, ?_, ?_⟩
  · simp [SSEWriter.close, hw]
  · simp [SSEWriter.close, hw]
  · simp [SSEWriter.close, hw]
  · intro d
    simp [SSEWriter.close, SSEWriter.send, hw]

/-- Witness for C8 at the freshly constructed writer and one concrete
event. -/
theorem sse_close_idempotent_send_noop_witness :
    SSEWriter.new.close.close = SSEWriter.new.close ∧
    SSEWriter.new.close.finalized = SSEWriter.new.finalized + 1 ∧
    SSEWriter.new.close.send (JValue.str ("hi")) = (SSEWriter.new.close, false) :=
  ⟨(sse_close_idempotent_send_noop SSEWriter.new (by rfl)).1,
   (sse_close_idempotent_send_noop SSEWriter.new (by rfl)).2.1,
   (sse_close_idempotent_send_noop SSEWriter.new (by rfl)).2.2.2 (JValue.str ("hi"))⟩

/-- The application used to exhibit the unescaped-dot behavior of the
pattern compiler: one GET route whose template has a literal dot. -/
def dotApp : App := App.empty.get ("/a.b") [⟨"H", []⟩]

/-- C4 (failing on the code): pattern compilation does not escape the
dot of a literal segment: the template slash-a-dot-b compiles to a
pattern whose third token matches any character, so the route also
matches the path slash-a-X-b, which differs from the template at that
position.  The claim that literal metacharacters are escaped and match
only themselves is therefore false of the code. -/
theorem pathToPattern_dot_unescaped :
    pathToPattern ("/a.b") = [.lit '/', .lit 'a', .anyChar, .lit 'b'] ∧
    patMatch (pathToPattern ("/a.b")) ("/aXb").toList = some [] ∧
    (findRoute dotApp.routes ("GET") ("/aXb")).isSome = true ∧
    (findRoute dotApp.routes ("GET") ("/a.b")).isSome = true := by
  refine ⟨by decide, by decide, ?_, ?_⟩
  · simp [dotApp, App.get, App.on, App.empty, App.addRoute, jsUpper, findRoute,
      extractParams,
      show patMatch (pathToPattern ("/a.b")) ['/', 'a', 'X', 'b'] = some []
        from by decide]
  · simp [dotApp, App.get, App.on, App.empty, App.addRoute, jsUpper, findRoute,
      extractParams,
      show patMatch (pathToPattern ("/a.b")) ['/', 'a', '.', 'b'] = some []
        from by decide]

/-- The application used to exhibit that a malformed template (a
duplicate parameter name) registers without any error. -/
def dupApp : App := App.empty.on ("GET") ("/x/:id/:id") [⟨"H", []⟩]

/-- C9 counterexample: registering the duplicate-parameter template
succeeds (a route is added, no configuration error exists anywhere in
the registration path), and the registered route resolves requests,
silently binding the duplicated name to the last capture. -/
theorem dup_param_registration_succeeds :
    dupApp.routes.length = 1 ∧
    (findRoute dupApp.routes ("GET") ("/x/a/b")).map (fun m => m.2) =
      some [(("id"), some ("b"))] := by
  constructor
  · rfl
  · simp [dupApp, App.on, App.empty, App.addRoute, jsUpper, findRoute, extractParams,
      show patMatch (pathToPattern ("/x/:id/:id")) ['/', 'x', '/', 'a', '/', 'b'] =
          some [("a"), ("b")] from by decide,
      show paramNames ("/x/:id/:id") = [("id"), ("id")] from by decide,
      show buildParams [("id"), ("id")] [("a"), ("b")] = [(("id"), some ("b"))]
        from by decide]

/-- C9 amended: registration never validates the template: for every
method, template and handler list, addRoute appends exactly one route
compiled from the template and cannot fail; malformed templates are
accepted and their behavior surfaces only at request time. -/
theorem addRoute_never_fails (app : App) (method path : String) (handlers : List Handler) :
    (app.addRoute method path handlers).routes =
      app.routes ++ [⟨method, path, pathToPattern path, handlers⟩] ∧
    (app.addRoute method path handlers).routes.length = app.routes.length + 1 ∧
    (app.addRoute method path handlers).middlewares = app.middlewares ∧
    (app.addRoute method path handlers).errorHandlers = app.errorHandlers := by
  refine ⟨rfl, by simp [App.addRoute], rfl, rfl⟩

/-- C3: resolution is the linear scan over routes of equal method in
registration order, returning the first pattern match with its capture
map; for a template without duplicate parameter names the params map
binds exactly the declared names, in declaration order; and registering
slash-users-colon-id then resolving slash-users-123 binds id to 123. -/
theorem resolution_linear_scan :
    (∀ (H : Type) (routes : List (RouteDefinition H)) (method path : String),
      findRoute routes method path = findRouteSpec routes method path) ∧
    (∀ (names groups : List String), names.Nodup →
      (buildParams names groups).map Prod.fst = names) ∧
    ((findRoute (App.empty.get ("/users/:id") [⟨"H", []⟩]).routes
        ("GET") ("/users/123")).map (fun m => (m.1.path, m.2)) =
      some (("/users/:id"), [(("id"), some ("123"))])) := by
  refine ⟨findRoute_eq_spec, ?_, ?_⟩
  · intro names groups hnd
    have := buildParams_keys_aux names 0 groups [] hnd (by simp)
    simpa [buildParams, List.enum] using this
  · simp [App.get, App.on, App.empty, App.addRoute, jsUpper, findRoute, extractParams,
      show patMatch (pathToPattern ("/users/:id"))
          ['/', 'u', 's', 'e', 'r', 's', '/', '1', '2', '3'] = some [("123")]
        from by decide,
      show paramNames ("/users/:id") = [("id")] from by decide,
      show buildParams [("id")] [("123")] = [(("id"), some ("123"))] from by decide]

/-- Witness for C3 discharging the no-duplicate hypothesis at the
one-parameter template of the example. -/
theorem resolution_linear_scan_witness :
    (buildParams [("id")] [("123")]).map Prod.fst = [("id")] :=
  resolution_linear_scan.2.1 [("id")] [("123")] (by simp)

/-- C1: with global middleware A then B registered through use and a
route slash-x with handler H registered through get, a dispatch of GET
slash-x (through handle and through the listen fetch of revision A,
whose chain executors are the one embedded runChain) invokes exactly A,
B, H in that order, provided each handler never throws and invokes its
proceed continuation. -/
theorem global_middleware_then_route (A B H : Handler)
    (hA1 : actsCleanB A.actions = true) (hA2 : actsHasProceedB A.actions = true)
    (hB1 : actsCleanB B.actions = true) (hB2 : actsHasProceedB B.actions = true)
    (hH1 : actsCleanB H.actions = true) (hH2 : actsHasProceedB H.actions = true) :
    (handleDispatch (((App.empty.use A).use B).get ("/x") [H]) ("GET") ("/x")).trace =
      [A.name, B.name, H.name] ∧
    (listenDispatchA (((App.empty.use A).use B).get ("/x") [H]) ("GET") ("/x")).trace =
      [A.name, B.name, H.name] := by
  have happ : (((App.empty.use A).use B).get ("/x") [H]).routes =
      [⟨("GET"), ("/x"), pathToPattern ("/x"), [H]⟩] := by
    simp [App.get, App.on, App.use, App.empty, App.addRoute,
      show jsUpper ("GET") = "GET" from by decide]
  have hmw : (((App.empty.use A).use B).get ("/x") [H]).middlewares = [A, B] := rfl
  have hfr : findRoute (((App.empty.use A).use B).get ("/x") [H]).routes ("GET") ("/x") =
      some (⟨("GET"), ("/x"), pathToPattern ("/x"), [H]⟩, []) := by
    rw [happ]
    simp [findRoute, extractParams,
      show patMatch (pathToPattern ("/x")) ['/', 'x'] = some [] from by decide,
      show paramNames ("/x") = [] from by decide,
      show buildParams [] [] = [] from rfl]
  have hmem : ∀ g ∈ [A, B, H], actsCleanB g.actions = true ∧
      actsHasProceedB g.actions = true := by
    intro g hg
    simp only [List.mem_cons, List.not_mem_nil, or_false] at hg
    rcases hg with rfl | rfl | rfl
    · exact ⟨hA1, hA2⟩
    · exact ⟨hB1, hB2⟩
    · exact ⟨hH1, hH2⟩
  obtain ⟨s, hs⟩ := runChain_clean [A, B, H] hmem initRes
  constructor
  · simp [handleDispatch, hfr, hmw, hs]
  · simp [listenDispatchA, hfr, hmw, hs]

/-- Witness for C1 at three concrete proceed-only handlers. -/
theorem global_middleware_then_route_witness :
    (handleDispatch (((App.empty.use ⟨("A"), [.proceed]⟩).use ⟨("B"), [.proceed]⟩).get
        ("/x") [⟨("HH"), [.proceed]⟩]) ("GET") ("/x")).trace = [("A"), ("B"), ("HH")] ∧
    (listenDispatchA (((App.empty.use ⟨("A"), [.proceed]⟩).use ⟨("B"), [.proceed]⟩).get
        ("/x") [⟨("HH"), [.proceed]⟩]) ("GET") ("/x")).trace = [("A"), ("B"), ("HH")] :=
  global_middleware_then_route ⟨("A"), [.proceed]⟩ ⟨("B"), [.proceed]⟩ ⟨("HH"), [.proceed]⟩
    (by rfl) (by rfl) (by rfl) (by rfl) (by rfl) (by rfl)

/-- An application whose first global middleware calls proceed twice:
h1 proceeds, h2 returns without proceeding, h1's second proceed resumes
the chain past h2. -/
def dblProceedApp : App :=
  ((App.empty.use ⟨"h1", [.proceed, .proceed]⟩).use ⟨"h2", [.setStatus 201]⟩).get
    ("/x") [⟨"h3", [.textH ("late")]⟩]

/-- C2 counterexample: in the chain h1, h2, h3 where h2 returns without
invoking proceed, handler h3 at a later position still executes,
because h1 invokes its proceed continuation a second time and the
shared index has already advanced past h2; the serialized response
carries h3's body write, not the state as of h2. -/
theorem no_proceed_halt_counterexample :
    (handleDispatch dblProceedApp ("GET") ("/x")).trace = [("h1"), ("h2"), ("h3")] ∧
    (handleDispatch dblProceedApp ("GET") ("/x")).wire.body =
      WireBody.fromState (BodyVal.text ("late")) := by
  constructor <;>
    simp [dblProceedApp, handleDispatch, App.get, App.on, App.use, App.empty, App.addRoute,
      jsUpper, findRoute, extractParams, pathToPattern, compileGo, patMatch, paramNames,
      paramNamesGo, buildParams, capSplits, runChain, runActions, initRes, serializeRes,
      ResponseState.status, ResponseState.text, ResponseState.header, headersSet]

/-- C2 amended: when every handler before position i is clean and
invokes proceed exactly once and the handler at position i is clean and
never invokes proceed, the chain halts at i: handlers after i never
execute, no error is raised, and the response state (and the response
handle serializes) is exactly the state the truncated chain ending at i
produces. -/
theorem no_proceed_halts_chain (pre : List Handler) (hi : Handler) (post : List Handler)
    (hpre : ∀ h ∈ pre, actsCleanB h.actions = true ∧ h.actions.countP isProceed = 1)
    (hic : actsCleanB hi.actions = true) (hip : actsNoProceedB hi.actions = true) :
    runChain (pre ++ hi :: post) initRes =
      ⟨(runChain (pre ++ [hi]) initRes).res, (pre ++ [hi]).map Handler.name,
        pre.length + 1, none⟩ ∧
    (∀ (app : App) (m p : String) (route : RouteDefinition Handler) (params : Params),
      findRoute app.routes m p = some (route, params) →
      app.middlewares ++ route.handlers = pre ++ hi :: post →
      handleDispatch app m p =
        ⟨serializeRes (runChain (pre ++ [hi]) initRes).res,
          (pre ++ [hi]).map Handler.name, []⟩) := by
  have h1 := runActions_halt_chain pre hpre hi hic hip post initRes []
  have h2 := runActions_halt_chain pre hpre hi hic hip [] initRes []
  have hfull : runChain (pre ++ hi :: post) initRes =
      ⟨chainState pre hi initRes, (pre ++ [hi]).map Handler.name, pre.length + 1, none⟩ := by
    rw [runChain, h1]
    simp
  have htrunc : runChain (pre ++ [hi]) initRes =
      ⟨chainState pre hi initRes, (pre ++ [hi]).map Handler.name, pre.length + 1, none⟩ := by
    rw [runChain, show pre ++ [hi] = pre ++ hi :: ([] : List Handler) from rfl, h2]
    simp
  constructor
  · rw [hfull, htrunc]
  · intro app m p route params hfr hchain
    simp [handleDispatch, hfr, hchain, hfull, htrunc]

/-- Witness for C2 amended in a three-handler chain where the middle
handler never proceeds. -/
theorem no_proceed_halts_chain_witness :
    runChain ([(⟨("W1"), [.proceed]⟩ : Handler)] ++
        (⟨("W2"), [.setStatus 201]⟩ : Handler) :: [(⟨("W3"), [.textH ("x")]⟩ : Handler)])
      initRes =
      ⟨(runChain ([(⟨("W1"), [.proceed]⟩ : Handler)] ++
          [(⟨("W2"), [.setStatus 201]⟩ : Handler)]) initRes).res,
        [("W1"), ("W2")], 2, none⟩ :=
  (no_proceed_halts_chain [⟨("W1"), [.proceed]⟩] ⟨("W2"), [.setStatus 201]⟩
      [⟨("W3"), [.textH ("x")]⟩]
      (by intro h hh
          simp only [List.mem_singleton] at hh
          subst hh
          exact ⟨rfl, rfl⟩)
      (by rfl) (by rfl)).1

/-- An application with one recovering error handler and no routes. -/
def recApp : App := App.empty.useError ⟨"E", [.setStatus 200, .textE ("recovered")]⟩

/-- C5 counterexample: under the listen dispatch (both revisions), a
request matching no route is answered 404 directly by the top-level
boundary: the registered recovering error handler is never invoked
(empty error trace), so NotFound does not flow through the error chain
there. -/
theorem notfound_bypasses_error_chain_in_listen :
    recApp.errorHandlers.length = 1 ∧
    listenDispatchA recApp ("GET") ("/nope") =
      ⟨errorWire 404 [(("error"), ("Not Found"))], [], []⟩ ∧
    listenDispatchB false recApp ("GET") ("/nope") =
      ⟨errorWire 404 [(("error"), ("Not Found"))], [], []⟩ := by
  refine ⟨rfl, ?_, ?_⟩ <;> rfl

/-- The first error handler of a nonempty error chain is invoked with
the caught error, and every later invocation delivers that same error. -/
theorem runErrChain_head (e : JSError) (eh : ErrHandler) (rest : List ErrHandler)
    (res : ResponseState) :
    ∃ d, (runErrChain e (eh :: rest) res).etrace = (eh.name, e) :: d ∧ ∀ x ∈ d, x.2 = e := by
  obtain ⟨d, hd, hall⟩ := runEActions_etrace_prefix e eh.actions rest res [(eh.name, e)]
  rw [runErrChain]
  simp only [runEActions]
  cases herr : (runEActions e eh.actions rest res [(eh.name, e)]).err with
  | some e2 => exact ⟨d, by simp [herr, hd], hall⟩
  | none => exact ⟨d, by simp [herr, runEActions, hd], hall⟩

/-- C5 amended: in handle, a request matching no route raises
HalinError 404 Not Found into the error chain: the error handlers run
against the fresh response state, the first one receives exactly that
NotFound failure (as does every one invoked after it), and recovery is
honored; in the listen dispatch of revision A the same request is
answered 404 directly without consulting the error chain. -/
theorem notfound_through_error_chain_in_handle (app : App) (m p : String)
    (hnone : findRoute app.routes m p = none) :
    handleDispatch app m p = handleRecover app initRes [] (.halin 404 ("Not Found")) ∧
    (∀ eh rest, app.errorHandlers = eh :: rest →
      ∃ d, (handleDispatch app m p).etrace =
        (eh.name, JSError.halin 404 ("Not Found")) :: d ∧
        ∀ x ∈ d, x.2 = JSError.halin 404 ("Not Found")) ∧
    listenDispatchA app m p = ⟨listenBoundaryA (.halin 404 ("Not Found")), [], []⟩ := by
  have hh : handleDispatch app m p = handleRecover app initRes [] (.halin 404 ("Not Found")) := by
    simp [handleDispatch, hnone]
  refine ⟨hh, ?_, by simp [listenDispatchA, hnone]⟩
  intro eh rest heh
  obtain ⟨d, hd, hall⟩ := runErrChain_head (.halin 404 ("Not Found")) eh rest initRes
  refine ⟨d, ?_, hall⟩
  rw [hh]
  simp only [handleRecover, heh, List.isEmpty_cons, Bool.false_eq_true, if_false]
  cases herr : (runErrChain (.halin 404 ("Not Found")) (eh :: rest) initRes).err with
  | some e2 =>
    simp only [herr]
    exact hd
  | none =>
    simp only [herr]
    exact hd

/-- Witness for C5 amended at the recovering-error-handler application. -/
theorem notfound_through_error_chain_in_handle_witness :
    handleDispatch recApp ("GET") ("/nope") =
      handleRecover recApp initRes [] (.halin 404 ("Not Found")) :=
  (notfound_through_error_chain_in_handle recApp ("GET") ("/nope") (by rfl)).1

/-- An application whose route handler throws a plain Error and which
registers one recovering error handler. -/
def wrapApp : App :=
  (App.empty.useError ⟨"E", [.setStatus 500]⟩).get ("/x")
    [⟨"H", [.throwErr (.generic ("boom"))]⟩]

/-- C6 counterexample: under the listen dispatch of revision B, a plain
Error thrown by a handler is delivered to the error chain wrapped into
HalinError 500 Middleware error boom, not as the original error value:
the wrap loses the original error identity. -/
theorem error_wrapped_in_listen_b :
    (listenDispatchB false wrapApp ("GET") ("/x")).etrace =
      [(("E"), JSError.halin 500 ("Middleware error: boom"))] ∧
    JSError.halin 500 ("Middleware error: boom") ≠ JSError.generic ("boom") := by
  constructor
  · simp [wrapApp, listenDispatchB, App.get, App.on, App.useError, App.empty, App.addRoute,
      jsUpper, findRoute, extractParams, pathToPattern, compileGo, patMatch, paramNames,
      paramNamesGo, buildParams, runChain, runActions, runErrChain, runEActions, wrapMw,
      initRes, ResponseState.status]
  · decide

/-- Every error handler invoked in one recovery pass receives the one
caught error. -/
theorem runErrChain_all_e (e : JSError) (ehs : List ErrHandler) (res : ResponseState) :
    ∀ x ∈ (runErrChain e ehs res).etrace, x.2 = e := by
  obtain ⟨d, hd, hall⟩ := runEActions_etrace_prefix e [.proceed] ehs res []
  intro x hx
  rw [runErrChain] at hx
  rw [hd] at hx
  simp only [List.nil_append] at hx
  exact hall x hx

/-- C6 amended: in handle and in the listen dispatch of revision A, an
error escaping the matched chain reaches its destination unmodified:
with no error handlers the top-level boundary receives exactly the
thrown value, and otherwise every invoked error handler receives
exactly the thrown value.  (Revision B listen wraps instead, see the
counterexample.) -/
theorem error_preserved_in_handle (app : App) (m p : String)
    (route : RouteDefinition Handler) (params : Params) (e : JSError)
    (hfr : findRoute app.routes m p = some (route, params))
    (he : (runChain (app.middlewares ++ route.handlers) initRes).err = some e) :
    (app.errorHandlers = [] → (handleDispatch app m p).wire = handleBoundary e ∧
      (listenDispatchA app m p).wire = listenBoundaryA e) ∧
    (∀ x ∈ (handleDispatch app m p).etrace, x.2 = e) ∧
    (∀ x ∈ (listenDispatchA app m p).etrace, x.2 = e) := by
  refine ⟨?_, ?_, ?_⟩
  · intro hemp
    constructor
    · simp [handleDispatch, hfr, he, handleRecover, hemp]
    · simp [listenDispatchA, hfr, he, hemp]
  · intro x hx
    simp only [handleDispatch, hfr, he] at hx
    simp only [handleRecover] at hx
    by_cases hemp : app.errorHandlers.isEmpty
    · simp [hemp] at hx
    · simp only [hemp, Bool.false_eq_true, if_false] at hx
      cases herr : (runErrChain e app.errorHandlers
          (runChain (app.middlewares ++ route.handlers) initRes).res).err with
      | some e2 =>
        simp only [herr] at hx
        exact runErrChain_all_e e _ _ x hx
      | none =>
        simp only [herr] at hx
        exact runErrChain_all_e e _ _ x hx
  · intro x hx
    simp only [listenDispatchA, hfr, he] at hx
    by_cases hemp : app.errorHandlers.isEmpty
    · simp [hemp] at hx
    · simp only [hemp, Bool.false_eq_true, if_false] at hx
      cases herr : (runErrChain e app.errorHandlers
          (runChain (app.middlewares ++ route.handlers) initRes).res).err with
      | some e2 =>
        simp only [herr] at hx
        exact runErrChain_all_e e _ _ x hx
      | none =>
        simp only [herr] at hx
        exact runErrChain_all_e e _ _ x hx

/-- An application with a throwing route handler and no error
handlers. -/
def rawThrowApp : App := App.empty.get ("/y") [⟨"H", [.throwErr (.generic ("boom"))]⟩]

/-- Witness for C6 amended: the boundary receives the original plain
Error unmodified. -/
theorem error_preserved_in_handle_witness :
    (handleDispatch rawThrowApp ("GET") ("/y")).wire =
      handleBoundary (.generic ("boom")) ∧
    (listenDispatchA rawThrowApp ("GET") ("/y")).wire =
      listenBoundaryA (.generic ("boom")) :=
  (error_preserved_in_handle rawThrowApp ("GET") ("/y")
    ⟨("GET"), ("/y"), pathToPattern ("/y"), [⟨("H"), [.throwErr (.generic ("boom"))]⟩]⟩
    [] (.generic ("boom")) (by rfl)
    (by simp [rawThrowApp, App.get, App.on, App.empty, App.addRoute, runChain,
      runActions])).1 rfl

/-- An application whose route handler throws a plain Error carrying a
sensitive message, with no error handlers registered. -/
def leakApp : App := App.empty.get ("/x") [⟨"H", [.throwErr (.generic ("secret"))]⟩]

/-- C7 counterexample: the final catch of handle serializes the raw
message of a non-HalinError failure into the default error field of the
500 response, rather than the safe Internal Server Error text (its unit
tests pin exactly this behavior). -/
theorem handle_boundary_leaks_raw_message :
    (handleDispatch leakApp ("GET") ("/x")).wire.status = 500 ∧
    (handleDispatch leakApp ("GET") ("/x")).wire.body =
      WireBody.jsonFields [(("error"), ("secret"))] ∧
    WireBody.jsonFields [(("error"), ("secret"))] ≠
      WireBody.jsonFields [(("error"), ("Internal Server Error"))] := by
  refine ⟨?_, ?_, by decide⟩ <;>
    simp [leakApp, handleDispatch, App.get, App.on, App.empty, App.addRoute, jsUpper,
      findRoute, extractParams, pathToPattern, compileGo, patMatch, paramNames,
      paramNamesGo, buildParams, runChain, runActions, handleRecover, handleBoundary,
      errorWire, initRes]

/-- C7 amended: the listen boundaries map a non-HalinError unrecovered
failure to 500 with the safe body (revision B adds the raw message only
in a separate message field and only in development mode), and this is
what a listen-A dispatch of a request whose chain fails with a plain
Error produces when no error handlers exist; the handle boundary
instead emits the raw message in the error field, falling back to the
safe text only for an empty message. -/
theorem unrecovered_boundary_responses (msg : String) (hm : msg ≠ "") :
    listenBoundaryA (.generic msg) = errorWire 500 [(("error"), ("Internal Server Error"))] ∧
    listenBoundaryB false (.generic msg) =
      errorWire 500 [(("error"), ("Internal Server Error"))] ∧
    listenBoundaryB true (.generic msg) =
      errorWire 500 [(("error"), ("Internal Server Error")), (("message"), msg)] ∧
    handleBoundary (.generic msg) = errorWire 500 [(("error"), msg)] ∧
    handleBoundary (.generic ("")) =
      errorWire 500 [(("error"), ("Internal Server Error"))] ∧
    (∀ (app : App) (m p : String) (route : RouteDefinition Handler) (params : Params),
      findRoute app.routes m p = some (route, params) →
      (runChain (app.middlewares ++ route.handlers) initRes).err = some (.generic msg) →
      app.errorHandlers = [] →
      (listenDispatchA app m p).wire = errorWire 500 [(("error"), ("Internal Server Error"))] ∧
      (handleDispatch app m p).wire = errorWire 500 [(("error"), msg)]) := by
  refine ⟨rfl, rfl, ?_, ?_, rfl, ?_⟩
  · simp [listenBoundaryB, hm, errorWire]
  · simp [handleBoundary, hm, errorWire]
  · intro app m p route params hfr he hemp
    constructor
    · simp [listenDispatchA, hfr, he, hemp, listenBoundaryA]
    · simp [handleDispatch, hfr, he, handleRecover, hemp, handleBoundary, hm]

/-- Witness for C7 amended at a concrete message. -/
theorem unrecovered_boundary_responses_witness :
    handleBoundary (.generic ("secret details")) =
      errorWire 500 [(("error"), ("secret details"))] ∧
    listenBoundaryA (.generic ("secret details")) =
      errorWire 500 [(("error"), ("Internal Server Error"))] :=
  ⟨(unrecovered_boundary_responses ("secret details") (by decide)).2.2.2.1,
   (unrecovered_boundary_responses ("secret details") (by decide)).1⟩

end Halin
